import Mathlib

/-!
Verification of the PopenMgr process controller (src/process.py) and its
line-oriented text reader (src/text.py) against its specification.

The embedding is shallow: the backing file of a stream is a list of bytes,
the read cursor is an index into it, and the decoding collaborators that the
source treats as black boxes (the Python codec machinery reached through
`bytes.decode` and the chardet-based encoding oracle `detect_bytes_encoding`)
are parameters collected in `DecodeCtx`.  All functions are fuel-free or use
structural fuel so that every definition evaluates by `decide`/`rfl`.
-/

namespace PopenMgr

/-- A byte of a backing file (0–255 in intended use); newline is byte 10. -/
abbrev Byte := Nat

/-- The decoding collaborators of `src/text.py`, treated as black boxes by the
spec: `decode e bs` is Python `bs.decode(e, errors='strict')` (`none` models a
`UnicodeDecodeError`), `decodeReplace e bs` is `bs.decode(e, errors='replace')`
(total: replacement characters are substituted), and `detect` is the encoding
oracle `detect_bytes_encoding` (`none` = no guess). -/
structure DecodeCtx where
  decode : String → List Byte → Option String
  decodeReplace : String → List Byte → String
  detect : List Byte → Option String

/-- `self._fileIO.readline()`: the bytes from the cursor up to and including
the first newline byte, or up to the end of the file if no newline occurs. -/
def takeLine : List Byte → List Byte
  | [] => []
  | b :: bs => if b = 10 then [10] else b :: takeLine bs

/-- Python byte-string slicing `l[:m]`: the first `m` bytes when `m ≥ 0`
(zero keeps nothing), and all but the last `|m|` bytes when `m < 0`. -/
def pySlice (l : List Byte) (m : Int) : List Byte :=
  if 0 ≤ m then l.take m.toNat else l.take (l.length - (-m).toNat)

/-- The local decoding state of one `__readlines_with_encoding_fix` call:
the working `encoding`, the persisted `self._fixed_encoding`, and whether
`errors_strategy` has been switched from `'strict'` to `'replace'`. -/
structure DecState where
  enc : String
  fixed : String
  repl : Bool
deriving DecidableEq, Repr

/-- Outcome of the 3-attempt decode loop on one raw line: decoded, silently
dropped after exhausting the retries, or a strict-mode `CustomError` carrying
the offending bytes. -/
inductive DecodeOutcome where
  | ok (s : String)
  | dropped
  | err (raw : List Byte)
deriving DecidableEq, Repr

/-- One `raw_line.decode(encoding, errors = errors_strategy)` attempt. -/
def attemptDecode (ctx : DecodeCtx) (enc : String) (repl : Bool)
    (raw : List Byte) : Option String :=
  if repl then some (ctx.decodeReplace enc raw) else ctx.decode enc raw

/-- The `for retry_count in range(3)` loop of
`TextFileParser.__readlines_with_encoding_fix`, called with fuel 3.  On a
`UnicodeDecodeError` the oracle is consulted: with no guess, strict mode
raises and non-strict mode switches `errors_strategy` to `'replace'`; with a
guess, it is adopted as both the working and the fixed encoding.  The third
component records the byte strings passed to the oracle (ghost state). -/
def tryDecode (ctx : DecodeCtx) (strict : Bool) :
    Nat → List Byte → DecState → DecodeOutcome × DecState × List (List Byte)
  | 0, _, ds => (.dropped, ds, [])
  | n + 1, raw, ds =>
    match attemptDecode ctx ds.enc ds.repl raw with
    | some s => (.ok s, ds, [])
    | none =>
      match ctx.detect raw with
      | none =>
        if strict then (.err raw, ds, [raw])
        else
          let r := tryDecode ctx strict n raw { ds with repl := true }
          (r.1, r.2.1, raw :: r.2.2)
      | some newEnc =>
        let r := tryDecode ctx strict n raw { enc := newEnc, fixed := newEnc, repl := ds.repl }
        (r.1, r.2.1, raw :: r.2.2)

/-- Result of one `readlines` call: decoded lines, total raw bytes consumed
(`read_size`, which is also the cursor advance), the final
`self._fixed_encoding`, and the ghost log of oracle consultations. -/
structure ReadResult where
  lines : List String
  readSize : Nat
  fixed : String
  oracleCalls : List (List Byte)
deriving DecidableEq, Repr

/-- The `while (line_num_to_read == -1) or (len(lines) < line_num_to_read)`
loop of `__readlines_with_encoding_fix`, reading from the byte suffix `rest`
at the cursor.  Each iteration reads one raw line, counts its bytes into
`read_size`, truncates it with `raw_line[:max_len_one_line]`, breaks when the
truncated line is empty, and otherwise decodes it with up to 3 attempts.
The `Nat` fuel bounds the iteration count; callers pass `rest.length + 1`,
which is always sufficient since every non-final iteration consumes at least
one byte. -/
def readlinesGo (ctx : DecodeCtx) (strict : Bool) (lineNum maxLen : Int) :
    Nat → List Byte → DecState → List String → Nat → List (List Byte) →
    Except (List Byte) ReadResult
  | 0, _, ds, lines, size, calls => .ok ⟨lines, size, ds.fixed, calls⟩
  | fuel + 1, rest, ds, lines, size, calls =>
    if lineNum = -1 ∨ (lines.length : Int) < lineNum then
      let raw := takeLine rest
      let size1 := size + raw.length
      let trunc := pySlice raw maxLen
      if trunc = [] then .ok ⟨lines, size1, ds.fixed, calls⟩
      else
        match tryDecode ctx strict 3 trunc ds with
        | (.err r, _, _) => .error r
        | (.ok s, ds1, cl) =>
            readlinesGo ctx strict lineNum maxLen fuel (rest.drop raw.length)
              ds1 (lines ++ [s]) size1 (calls ++ cl)
        | (.dropped, ds1, cl) =>
            readlinesGo ctx strict lineNum maxLen fuel (rest.drop raw.length)
              ds1 lines size1 (calls ++ cl)
    else .ok ⟨lines, size, ds.fixed, calls⟩

/-- The state of a `TextFileParser`: the bytes of its backing file, the read
cursor (`self._fileIO.tell()`), the default encoding and the learned
`self._fixed_encoding` (empty string until a decode failure fixes one). -/
structure TextFileParser where
  content : List Byte
  pos : Nat
  defaultEncoding : String
  fixedEncoding : String
deriving DecidableEq, Repr

/-- `TextFileParser.reach_end`: cursor position ≥ current file size. -/
def TextFileParser.reach_end (p : TextFileParser) : Bool :=
  decide (p.content.length ≤ p.pos)

/-- `TextFileParser.readlines` (delegating to
`__readlines_with_encoding_fix`): starts from the default encoding unless a
fixed encoding has been learned, runs the read loop from the cursor, and on
success returns the decoded lines, the byte count consumed, the updated
parser (cursor advanced by `read_size`, fixed encoding persisted) and the
ghost oracle-call log.  `.error` models the strict-mode `CustomError`. -/
def TextFileParser.readlines (ctx : DecodeCtx) (p : TextFileParser)
    (lineNum maxLen : Int) (strict : Bool) :
    Except (List Byte) (List String × Nat × TextFileParser × List (List Byte)) :=
  let rest := p.content.drop p.pos
  let enc := if p.fixedEncoding = "" then p.defaultEncoding else p.fixedEncoding
  match readlinesGo ctx strict lineNum maxLen (rest.length + 1) rest
      ⟨enc, p.fixedEncoding, false⟩ [] 0 [] with
  | .error r => .error r
  | .ok r =>
      .ok (r.lines, r.readSize,
        { p with pos := p.pos + r.readSize, fixedEncoding := r.fixed },
        r.oracleCalls)

/-- Splitting a byte suffix into its raw lines, as successive `readline`
calls would produce them (fuel-based helper). -/
def splitLinesGo : Nat → List Byte → List (List Byte)
  | 0, _ => []
  | fuel + 1, rest =>
    if rest = [] then []
    else takeLine rest :: splitLinesGo fuel (rest.drop (takeLine rest).length)

/-- The raw lines of a byte suffix, in file order. -/
def splitLines (rest : List Byte) : List (List Byte) :=
  splitLinesGo (rest.length + 1) rest

/-- The ASCII string spelled by a list of bytes, used to state byte-for-byte
round-trip properties about decoded lines. -/
def asciiStr (bs : List Byte) : String :=
  String.mk (bs.map (fun b => Char.ofNat b))

/-- A concrete instance of the decoding collaborators used for witnesses: a
UTF-8 codec restricted to its ASCII fragment, a replacement-mode decoder that
spells the bytes, and an oracle that never guesses. -/
def asciiCtx : DecodeCtx where
  decode := fun e bs =>
    if e = "utf-8" ∧ ∀ b ∈ bs, b < 128 then some (asciiStr bs) else none
  decodeReplace := fun _ bs => asciiStr bs
  detect := fun _ => none

/-- Decoding collaborators where every strict decode fails and the oracle
never guesses. -/
def noneCtx : DecodeCtx where
  decode := fun _ _ => none
  decodeReplace := fun _ bs => asciiStr bs
  detect := fun _ => none

/-- Decoding collaborators where every strict decode fails while the oracle
keeps returning the same (still failing) guess. -/
def stubbornCtx : DecodeCtx where
  decode := fun _ _ => none
  decodeReplace := fun _ bs => asciiStr bs
  detect := fun _ => some "mac-roman"

/-- Decoding collaborators for a stream whose true encoding is "latin-1". -/
def latinCtx : DecodeCtx where
  decode := fun e bs => if e = "latin-1" then some (asciiStr bs) else none
  decodeReplace := fun _ bs => asciiStr bs
  detect := fun _ => some "latin-1"

/-- Source constants `STDOUT = 1` and `STDERR = 2` (src/process.py), used
here to tag log-callback invocations. -/
def STDOUT : Nat := 1

/-- See `STDOUT`. -/
def STDERR : Nat := 2

/-- A `_StdStreamManager`: one backing file shared by the child's write
handle (whose position is `writePos`) and the embedded `TextFileParser`
reading the same bytes, plus the configured size ceiling `max_size`.  The
parser's `content` is the current byte content of the backing file. -/
structure StdStreamManager where
  parser : TextFileParser
  maxSize : Int
  writePos : Nat
deriving DecidableEq, Repr

/-- `_StdStreamManager.is_stream_end`: the reader has caught up with the
file's current size. -/
def StdStreamManager.is_stream_end (m : StdStreamManager) : Bool :=
  m.parser.reach_end

/-- `_StdStreamManager.pick_lines`: delegate to the text parser's
`readlines` (dropping the ghost oracle log). -/
def StdStreamManager.pick_lines (m : StdStreamManager) (ctx : DecodeCtx)
    (lineNum maxLen : Int) (strict : Bool) :
    Except (List Byte) (List String × Nat × StdStreamManager) :=
  match TextFileParser.readlines ctx m.parser lineNum maxLen strict with
  | .error r => .error r
  | .ok (lines, size, p1, _) => .ok (lines, size, { m with parser := p1 })

/-- One check of the `file_size_monitor` background loop
(`_set_output_file_size_monitor`): read the file's size, and when
`file_size - max_size > max_size * 0.5` reset both handles — each of the
two file objects is seeked to 0, truncated (both are writable: the reader
was opened "rb+"), and flushed — so the file becomes empty and both cursors
are at offset 0.  The returned Bool records whether the reset (the warning
branch) fired. -/
def StdStreamManager.file_size_monitor_check (m : StdStreamManager) :
    Bool × StdStreamManager :=
  let fileSize : Int := m.parser.content.length
  let beyondSize : Int := fileSize - m.maxSize
  if (beyondSize : ℚ) > (m.maxSize : ℚ) * (1 / 2) then
    (true, { m with parser := { m.parser with content := [], pos := 0 }, writePos := 0 })
  else (false, m)

/-- The result a `PopenProcMgr` run returns (class `ProcResult`). -/
structure ProcResult where
  returncode : Int
  stdout : List String
  stderr : List String
deriving DecidableEq, Repr

/-- The payload of the controller's `TimeoutError` exception: command
string, configured timeout, and the partial output drained so far. -/
structure TimeoutSig where
  cmd : String
  timeout : ℚ
  stdout : List String
  stderr : List String
deriving DecidableEq, Repr

/-- The state of a `PopenProcMgr`.  `stdoutMgr`/`stderrMgr` are the bound
stream capture managers (`none` when the stream is not collected; in merge
mode `_stderr_manager` is the same object as `_stdout_manager`, which the
embedding renders by keeping `stderrMgr = none` and routing every
`_stderr_manager` access through `stdoutMgr` when `mergeOption` is set).
`alive` is whether the OS process is still running, `killed`/`cleaned`
record whether the process tree was killed and whether `clean()` has run,
and `exitCode` is the child's exit status once it has exited. -/
structure PopenProcMgr where
  cmd : String
  label : String
  mergeOption : Bool
  stdoutMgr : Option StdStreamManager
  stderrMgr : Option StdStreamManager
  alive : Bool
  killed : Bool
  cleaned : Bool
  exitCode : Int
deriving DecidableEq, Repr

/-- `PopenProcMgr.pick_stdout`: `([], 0)` when stdout was never collected,
else delegate to the stdout manager's `pick_lines`. -/
def PopenProcMgr.pick_stdout (p : PopenProcMgr) (ctx : DecodeCtx)
    (lineNum maxLen : Int) (strict : Bool) :
    Except (List Byte) (List String × Nat × PopenProcMgr) :=
  match p.stdoutMgr with
  | none => .ok ([], 0, p)
  | some m =>
    match m.pick_lines ctx lineNum maxLen strict with
    | .error r => .error r
    | .ok (lines, size, m1) => .ok (lines, size, { p with stdoutMgr := some m1 })

/-- `PopenProcMgr.pick_stderr`: `([], 0)` when the merge option is active or
stderr was never collected, else delegate to the stderr manager. -/
def PopenProcMgr.pick_stderr (p : PopenProcMgr) (ctx : DecodeCtx)
    (lineNum maxLen : Int) (strict : Bool) :
    Except (List Byte) (List String × Nat × PopenProcMgr) :=
  if p.mergeOption then .ok ([], 0, p)
  else
    match p.stderrMgr with
    | none => .ok ([], 0, p)
    | some m =>
      match m.pick_lines ctx lineNum maxLen strict with
      | .error r => .error r
      | .ok (lines, size, m1) => .ok (lines, size, { p with stderrMgr := some m1 })

/-- `PopenProcMgr.still_remain_output_to_read`: a stream has unread data iff
its manager exists and its reader has not reached the end of the backing
file; in merge mode `_stderr_manager` aliases `_stdout_manager`. -/
def PopenProcMgr.still_remain_output_to_read (p : PopenProcMgr) : Bool :=
  let hasStdout := match p.stdoutMgr with
    | some m => !m.is_stream_end
    | none => false
  let hasStderr := match (if p.mergeOption then p.stdoutMgr else p.stderrMgr) with
    | some m => !m.is_stream_end
    | none => false
  hasStdout || hasStderr

/-- `PopenProcMgr.kill`: kill the process tree when it is alive, else no-op. -/
def PopenProcMgr.kill (p : PopenProcMgr) : PopenProcMgr :=
  if p.alive then { p with alive := false, killed := true } else p

/-- `PopenProcMgr.clean`: kill if still living, tear down both stream
capture managers (deleting backing files when `deleteFile`), and detach the
process handle. -/
def PopenProcMgr.clean (p : PopenProcMgr) (_deleteFile : Bool) : PopenProcMgr :=
  let p1 := p.kill
  { p1 with stdoutMgr := none, stderrMgr := none, cleaned := true }

/-- The environment's activity during one iteration of the wait loop: bytes
the child appends to the stdout and stderr backing files, whether the child
exits, and the reading of the monotonic clock consumed by this iteration's
deadline check. -/
structure IterEvent where
  outBytes : List Byte
  errBytes : List Byte
  exits : Bool
  now : ℚ

/-- Append freshly written bytes at the end of a manager's backing file. -/
def StdStreamManager.appendBytes (m : StdStreamManager) (bs : List Byte) :
    StdStreamManager :=
  let p1 := { m.parser with content := m.parser.content ++ bs }
  { m with parser := p1, writePos := (m.parser.content ++ bs).length }

/-- Apply one environment event to the controller state: the child's writes
land in the backing files (in merge mode both streams share the stdout
file) and the child may exit. -/
def applyEvent (ev : IterEvent) (p : PopenProcMgr) : PopenProcMgr :=
  let bs := if p.mergeOption then ev.outBytes ++ ev.errBytes else ev.outBytes
  let p1 := match p.stdoutMgr with
    | some m => { p with stdoutMgr := some (m.appendBytes bs) }
    | none => p
  let p2 := if p1.mergeOption then p1
    else match p1.stderrMgr with
      | some m => { p1 with stderrMgr := some (m.appendBytes ev.errBytes) }
      | none => p1
  { p2 with alive := p2.alive && !ev.exits }

/-- Python truthiness of the `timeout` argument (`None` and `0` are falsy):
`if timeout:` guards both the deadline computation and the per-iteration
deadline check in `PopenProcMgr._wait`. -/
def timeoutTruthy : Option ℚ → Bool
  | none => false
  | some t => if t = 0 then false else true

/-- How a run of the wait loop ends: normal completion with a `ProcResult`,
the `TimeoutError` exception, propagation of a strict-mode decode error, or
exhaustion of the iteration fuel (the loop still running). -/
inductive WaitOutcome where
  | ok (res : ProcResult)
  | timeout (sig : TimeoutSig)
  | decodeErr (raw : List Byte)
  | fuelOut
deriving DecidableEq, Repr

/-- Whether the run raised the timeout exception. -/
def WaitOutcome.isTimeout : WaitOutcome → Bool
  | .timeout _ => true
  | _ => false

/-- The verdict of one iteration of the wait loop: `halt` ends the run with
an outcome, final state and log; `next` continues with the drained
accumulators. -/
inductive StepRes where
  | halt (out : WaitOutcome) (p : PopenProcMgr) (log : List (Nat × String))
  | next (p : PopenProcMgr) (outAcc errAcc : List String) (log : List (Nat × String))
deriving DecidableEq, Repr

/-- One iteration of the polling loop of `PopenProcMgr._wait`.  Guard:
`still_remain_output_to_read() or is_living()`; when it fails, the
`ProcResult` is built from the return code and `clean(del_tmpfile)` runs.
Otherwise drain all currently returned stderr lines, then stdout lines
(each drained line is appended to the log tagged `STDERR`/`STDOUT`,
modelling the per-line log-callback invocations in source order); then, if
the timeout is truthy and the deadline has passed, kill the process and
raise `TimeoutError` with the partial buffers. -/
def waitStep (ctx : DecodeCtx) (timeout : Option ℚ) (endTime : ℚ) (delTmp : Bool)
    (ev : IterEvent) (p : PopenProcMgr) (outAcc errAcc : List String)
    (log : List (Nat × String)) : StepRes :=
  let p0 := applyEvent ev p
  if p0.still_remain_output_to_read || p0.alive then
    match p0.pick_stderr ctx (-1) (-1) false with
    | .error r => .halt (.decodeErr r) p0 log
    | .ok (errLines, _, p1) =>
      match p1.pick_stdout ctx (-1) (-1) false with
      | .error r => .halt (.decodeErr r) p1 log
      | .ok (outLines, _, p2) =>
        let outAcc1 := outAcc ++ outLines
        let errAcc1 := errAcc ++ errLines
        let log1 := log ++ errLines.map (fun s => (STDERR, s))
          ++ outLines.map (fun s => (STDOUT, s))
        if timeoutTruthy timeout then
          if endTime - ev.now ≤ 0 then
            .halt (.timeout ⟨p2.cmd, timeout.getD 0, outAcc1, errAcc1⟩) p2.kill log1
          else .next p2 outAcc1 errAcc1 log1
        else .next p2 outAcc1 errAcc1 log1
  else .halt (.ok ⟨p0.exitCode, outAcc, errAcc⟩) (p0.clean delTmp) log

/-- The polling loop of `PopenProcMgr._wait`, driven by one `IterEvent` per
iteration (missing events default to "nothing happens").  The `Nat` fuel
bounds the number of iterations. -/
def PopenProcMgr.waitLoop (ctx : DecodeCtx) (timeout : Option ℚ) (endTime : ℚ)
    (delTmp : Bool) :
    Nat → PopenProcMgr → List IterEvent → List String → List String →
    List (Nat × String) → WaitOutcome × PopenProcMgr × List (Nat × String)
  | 0, p, _, _, _, log => (.fuelOut, p, log)
  | fuel + 1, p, env, outAcc, errAcc, log =>
    match waitStep ctx timeout endTime delTmp (env.headD ⟨[], [], false, 0⟩) p outAcc errAcc log with
    | .halt out p9 log9 => (out, p9, log9)
    | .next p2 outAcc1 errAcc1 log1 =>
      PopenProcMgr.waitLoop ctx timeout endTime delTmp fuel p2 env.tail outAcc1 errAcc1 log1

/-- `PopenProcMgr._wait` entry point: compute the deadline from the clock
reading `t0` when the timeout is truthy and run the polling loop with empty
buffers. -/
def PopenProcMgr.wait (p : PopenProcMgr) (ctx : DecodeCtx) (timeout : Option ℚ)
    (t0 : ℚ) (fuel : Nat) (env : List IterEvent) :
    WaitOutcome × PopenProcMgr × List (Nat × String) :=
  PopenProcMgr.waitLoop ctx timeout (t0 + timeout.getD 0) true fuel p env [] [] []

/-- The lines of the callback log carrying a given stream tag, in order. -/
def linesOfTag (t : Nat) (log : List (Nat × String)) : List String :=
  (log.filter (fun e => e.1 == t)).map (fun e => e.2)

/-- The shape of the callback log produced by complete wait-loop runs: a
concatenation of per-iteration blocks, each consisting of that iteration's
stderr lines followed by its stdout lines. -/
def logBlocks : List (List String × List String) → List (Nat × String)
  | [] => []
  | (es, os) :: rest =>
    es.map (fun s => (STDERR, s)) ++ os.map (fun s => (STDOUT, s)) ++ logBlocks rest

/-- Default per-stream buffer ceiling of `PopenProcMgr.__init__`
(`1024 * 1024 * 100` bytes). -/
def defaultBufferSize : Int := 1024 * 1024 * 100

/-- A freshly created text parser over an empty backing file with the
default encoding (as `_StdStreamManager.__init__` creates it). -/
def freshParser : TextFileParser := ⟨[], 0, "utf-8", ""⟩

/-- A freshly started controller collecting both streams separately, with
default buffer sizes, process alive, nothing drained or cleaned. -/
def freshCtl : PopenProcMgr :=
  ⟨"child", "tmp", false, some ⟨freshParser, defaultBufferSize, 0⟩,
    some ⟨freshParser, defaultBufferSize, 0⟩, true, false, false, 0⟩

/-- The byte stream a child writes when it emits the given lines, each
terminated by a newline. -/
def encodeLinesNL : List (List Byte) → List Byte
  | [] => []
  | l :: ls => l ++ 10 :: encodeLinesNL ls

/-- The round-trip scenario: a fresh controller, one event in which the
child writes all its lines to stdout and exits, then `_wait` polls to
completion (4 iterations of fuel are ample). -/
def runChildScenario (ctx : DecodeCtx) (ls : List (List Byte)) :
    WaitOutcome × PopenProcMgr × List (Nat × String) :=
  PopenProcMgr.waitLoop ctx none 0 true 4 freshCtl
    [⟨encodeLinesNL ls, [], true, 0⟩] [] [] []

/-- The controller state right after the child has written `bs` to stdout
and exited, before any draining. -/
def midCtl (bs : List Byte) : PopenProcMgr :=
  ⟨"child", "tmp", false, some ⟨⟨bs, 0, "utf-8", ""⟩, defaultBufferSize, bs.length⟩,
    some ⟨⟨[], 0, "utf-8", ""⟩, defaultBufferSize, 0⟩, false, false, false, 0⟩

/-- The controller state after the stdout backlog `bs` has been fully
drained. -/
def drainedCtl (bs : List Byte) : PopenProcMgr :=
  ⟨"child", "tmp", false, some ⟨⟨bs, bs.length, "utf-8", ""⟩, defaultBufferSize, bs.length⟩,
    some ⟨⟨[], 0, "utf-8", ""⟩, defaultBufferSize, 0⟩, false, false, false, 0⟩

theorem asciiCtx_decode_ascii (bs : List Byte) (h : ∀ b ∈ bs, b < 128) :
    asciiCtx.decode "utf-8" bs = some (asciiStr bs) := by
  show (if ("utf-8" : String) = "utf-8" ∧ ∀ b ∈ bs, b < 128
      then some (asciiStr bs) else none) = some (asciiStr bs)
  rw [if_pos ⟨rfl, h⟩]

theorem takeLine_ne_nil {l : List Byte} (h : l ≠ []) : takeLine l ≠ [] := by
  cases l with
  | nil => exact absurd rfl h
  | cons b bs =>
    simp only [takeLine]
    split <;> simp

theorem takeLine_length_pos {l : List Byte} (h : l ≠ []) :
    0 < (takeLine l).length :=
  List.length_pos.mpr (takeLine_ne_nil h)

theorem pySlice_nil (m : Int) : pySlice [] m = [] := by
  simp [pySlice]

theorem takeLine_of_ne_nil_of_pySlice_ne_nil {l : List Byte} {m : Int}
    (h : pySlice (takeLine l) m ≠ []) : l ≠ [] := by
  intro hl
  subst hl
  simp [takeLine, pySlice_nil] at h

theorem takeLine_append_newline {l : List Byte} (rest : List Byte)
    (h : ∀ b ∈ l, b ≠ 10) : takeLine (l ++ 10 :: rest) = l ++ [10] := by
  induction l with
  | nil => simp [takeLine]
  | cons b bs ih =>
    have hb : b ≠ 10 := h b (by simp)
    have ih2 := ih (fun x hx => h x (by simp [hx]))
    simp [takeLine, if_neg hb, ih2]

theorem drop_takeLine_length_lt {rest : List Byte} (h : rest ≠ []) :
    (rest.drop (takeLine rest).length).length < rest.length := by
  rw [List.length_drop]
  exact Nat.sub_lt (List.length_pos.mpr h) (takeLine_length_pos h)

theorem splitLinesGo_congr :
    ∀ f g (rest : List Byte), rest.length < f → rest.length < g →
      splitLinesGo f rest = splitLinesGo g rest := by
  intro f
  induction f with
  | zero => intro g rest h; omega
  | succ f ih =>
    intro g rest hf hg
    match g, hg with
    | g + 1, hg =>
      rw [splitLinesGo, splitLinesGo]
      by_cases hrest : rest = []
      · rw [if_pos hrest, if_pos hrest]
      · rw [if_neg hrest, if_neg hrest]
        have hlt := drop_takeLine_length_lt hrest
        rw [ih g (rest.drop (takeLine rest).length) (by omega) (by omega)]

theorem splitLines_cons {rest : List Byte} (h : rest ≠ []) :
    splitLines rest = takeLine rest :: splitLines (rest.drop (takeLine rest).length) := by
  unfold splitLines
  rw [splitLinesGo, if_neg h]
  have hlt := drop_takeLine_length_lt h
  rw [splitLinesGo_congr rest.length ((rest.drop (takeLine rest).length).length + 1)
    (rest.drop (takeLine rest).length) (by omega) (by omega)]

/-- Claim C2, counterexample.  The claim says a non-positive
`max_len_one_line` leaves the raw line unmodified and that reading stops
exactly on a zero-byte read.  On the file "ab\n\n" with the default
`max_len_one_line = -1`, the slice `raw_line[:-1]` strips the final byte of
every raw line ("ab\n" becomes "ab"), and the read stops at the bare newline
line (a 1-byte read, not a zero-byte read) while counting its byte, so the
result is (["ab"], 4) instead of the claimed (["ab\n", "\n"], 4). -/
theorem claim_C2_counterexample :
    TextFileParser.readlines asciiCtx ⟨[97, 98, 10, 10], 0, "utf-8", ""⟩ (-1) (-1) false
      = .ok (["ab"], 4, ⟨[97, 98, 10, 10], 4, "utf-8", ""⟩, [])
    ∧ (["ab"] : List String) ≠ ["ab\n", "\n"] := by
  constructor
  · rfl
  · decide

/-- Claim C2, amended: each raw line is truncated by the Python slice
`raw_line[:max_len_one_line]` — the first `max_len` bytes when positive, all
but the last byte when `-1` (the default), nothing when `0` — and an
iteration of the read loop stops exactly when the *truncated* line is empty
(which covers a zero-byte read, but also a bare newline under the default,
or any read when `max_len_one_line = 0`), still counting the raw bytes that
were read into `read_size`; a non-empty truncated line is what gets decoded
and the loop continues. -/
theorem claim_C2_amended (ctx : DecodeCtx) (strict : Bool) (lineNum maxLen : Int)
    (fuel : Nat) (rest : List Byte) (ds : DecState) (acc : List String)
    (size : Nat) (calls : List (List Byte))
    (hcond : lineNum = -1 ∨ (acc.length : Int) < lineNum) :
    (0 < maxLen → pySlice (takeLine rest) maxLen = (takeLine rest).take maxLen.toNat)
    ∧ pySlice (takeLine rest) (-1) = (takeLine rest).dropLast
    ∧ (pySlice (takeLine rest) maxLen = [] →
        readlinesGo ctx strict lineNum maxLen (fuel + 1) rest ds acc size calls
          = .ok ⟨acc, size + (takeLine rest).length, ds.fixed, calls⟩)
    ∧ (∀ s ds1 cl, pySlice (takeLine rest) maxLen ≠ [] →
        tryDecode ctx strict 3 (pySlice (takeLine rest) maxLen) ds = (.ok s, ds1, cl) →
        readlinesGo ctx strict lineNum maxLen (fuel + 1) rest ds acc size calls
          = readlinesGo ctx strict lineNum maxLen fuel (rest.drop (takeLine rest).length)
              ds1 (acc ++ [s]) (size + (takeLine rest).length) (calls ++ cl)) := by
  refine ⟨?_, ?_, ?_, ?_⟩
  · intro hpos
    rw [pySlice, if_pos (le_of_lt hpos)]
  · rw [pySlice, if_neg (by omega), List.dropLast_eq_take]
    rfl
  · intro htr
    rw [readlinesGo, if_pos hcond, if_pos htr]
  · intro s ds1 cl htr hdec
    rw [readlinesGo, if_pos hcond, if_neg htr, hdec]

/-- Claim C7: when a line fails to decode and the oracle returns no guess,
strict mode fails the whole read with a decode error carrying the offending
(truncated) raw bytes, while non-strict mode decodes the line with the
current encoding under the replacement strategy and continues the read loop
on the following lines (with `errors_strategy` now `'replace'`). -/
theorem claim_C7 (ctx : DecodeCtx) (lineNum maxLen : Int) (fuel : Nat)
    (rest : List Byte) (E fx : String) (acc : List String) (size : Nat)
    (calls : List (List Byte))
    (hcond : lineNum = -1 ∨ (acc.length : Int) < lineNum)
    (htr : pySlice (takeLine rest) maxLen ≠ [])
    (hdec : ctx.decode E (pySlice (takeLine rest) maxLen) = none)
    (hdet : ctx.detect (pySlice (takeLine rest) maxLen) = none) :
    readlinesGo ctx true lineNum maxLen (fuel + 1) rest ⟨E, fx, false⟩ acc size calls
      = .error (pySlice (takeLine rest) maxLen)
    ∧ readlinesGo ctx false lineNum maxLen (fuel + 1) rest ⟨E, fx, false⟩ acc size calls
      = readlinesGo ctx false lineNum maxLen fuel (rest.drop (takeLine rest).length)
          ⟨E, fx, true⟩
          (acc ++ [ctx.decodeReplace E (pySlice (takeLine rest) maxLen)])
          (size + (takeLine rest).length)
          (calls ++ [pySlice (takeLine rest) maxLen]) := by
  constructor
  · have ht : tryDecode ctx true 3 (pySlice (takeLine rest) maxLen) ⟨E, fx, false⟩
        = (.err (pySlice (takeLine rest) maxLen), ⟨E, fx, false⟩,
            [pySlice (takeLine rest) maxLen]) := by
      simp [tryDecode, attemptDecode, hdec, hdet]
    rw [readlinesGo, if_pos hcond, if_neg htr, ht]
  · have ht : tryDecode ctx false 3 (pySlice (takeLine rest) maxLen) ⟨E, fx, false⟩
        = (.ok (ctx.decodeReplace E (pySlice (takeLine rest) maxLen)), ⟨E, fx, true⟩,
            [pySlice (takeLine rest) maxLen]) := by
      simp [tryDecode, attemptDecode, hdec, hdet]
    rw [readlinesGo, if_pos hcond, if_neg htr, ht]

/-- Claim C10: when decoding a line fails on all 3 retry attempts because
the oracle keeps returning an encoding that still fails to decode it, the
line is silently omitted from the returned line list while its raw bytes
are still counted into `read_size` and the cursor is left advanced past it
(the loop continues on the remaining bytes with an unchanged accumulator),
so the reported consumed size can exceed the bytes accounted for by the
returned lines.  The learned encoding ends as the oracle's last guess and
the oracle was consulted on the line three times. -/
theorem claim_C10 (ctx : DecodeCtx) (lineNum maxLen : Int) (fuel : Nat)
    (rest : List Byte) (E fx g : String) (acc : List String) (size : Nat)
    (calls : List (List Byte))
    (hcond : lineNum = -1 ∨ (acc.length : Int) < lineNum)
    (htr : pySlice (takeLine rest) maxLen ≠ [])
    (hdec : ∀ e, ctx.decode e (pySlice (takeLine rest) maxLen) = none)
    (hdet : ctx.detect (pySlice (takeLine rest) maxLen) = some g) :
    readlinesGo ctx false lineNum maxLen (fuel + 1) rest ⟨E, fx, false⟩ acc size calls
      = readlinesGo ctx false lineNum maxLen fuel (rest.drop (takeLine rest).length)
          ⟨g, g, false⟩ acc (size + (takeLine rest).length)
          (calls ++ [pySlice (takeLine rest) maxLen, pySlice (takeLine rest) maxLen,
            pySlice (takeLine rest) maxLen]) := by
  have ht : tryDecode ctx false 3 (pySlice (takeLine rest) maxLen) ⟨E, fx, false⟩
      = (.dropped, ⟨g, g, false⟩,
          [pySlice (takeLine rest) maxLen, pySlice (takeLine rest) maxLen,
            pySlice (takeLine rest) maxLen]) := by
    simp [tryDecode, attemptDecode, hdec, hdet]
  rw [readlinesGo, if_pos hcond, if_neg htr, ht]

/-- The read loop never consults the oracle and never changes the decoding
state when every line of the unread region decodes under the current
encoding with the strict strategy. -/
theorem readlinesGo_no_detect (ctx : DecodeCtx) (strict : Bool)
    (lineNum maxLen : Int) (E fx : String) :
    ∀ fuel (rest : List Byte), rest.length < fuel →
    ∀ (acc : List String) (size : Nat) (calls : List (List Byte)),
    (∀ l ∈ splitLines rest, pySlice l maxLen ≠ [] →
      (ctx.decode E (pySlice l maxLen)).isSome) →
    ∃ lines1 size1,
      readlinesGo ctx strict lineNum maxLen fuel rest ⟨E, fx, false⟩ acc size calls
        = .ok ⟨lines1, size1, fx, calls⟩ := by
  intro fuel
  induction fuel with
  | zero => intro rest h; omega
  | succ f ih =>
    intro rest hlen acc size calls hdec
    by_cases hcond : lineNum = -1 ∨ (acc.length : Int) < lineNum
    · by_cases htr : pySlice (takeLine rest) maxLen = []
      · rw [readlinesGo, if_pos hcond, if_pos htr]
        exact ⟨acc, size + (takeLine rest).length, rfl⟩
      · have hne : rest ≠ [] := takeLine_of_ne_nil_of_pySlice_ne_nil htr
        have hmem : takeLine rest ∈ splitLines rest := by
          rw [splitLines_cons hne]; exact List.mem_cons_self _ _
        obtain ⟨s, hs⟩ := Option.isSome_iff_exists.mp (hdec _ hmem htr)
        have ht : tryDecode ctx strict 3 (pySlice (takeLine rest) maxLen) ⟨E, fx, false⟩
            = (.ok s, ⟨E, fx, false⟩, []) := by
          simp [tryDecode, attemptDecode, hs]
        rw [readlinesGo, if_pos hcond, if_neg htr, ht]
        dsimp only
        have hlt := drop_takeLine_length_lt hne
        have hdec1 : ∀ l ∈ splitLines (rest.drop (takeLine rest).length),
            pySlice l maxLen ≠ [] → (ctx.decode E (pySlice l maxLen)).isSome := by
          intro l hl
          exact hdec l (by rw [splitLines_cons hne]; exact List.mem_cons_of_mem _ hl)
        obtain ⟨lines1, size1, hrec⟩ :=
          ih (rest.drop (takeLine rest).length) (by omega)
            (acc ++ [s]) (size + (takeLine rest).length) (calls ++ []) hdec1
        rw [hrec]
        exact ⟨lines1, size1, by rw [List.append_nil]⟩
    · rw [readlinesGo, if_neg hcond]
      exact ⟨acc, size, rfl⟩

/-- Claim C6, encoding stickiness: once a non-default encoding `E` has been
learned (stored in `self._fixed_encoding`), every subsequent `readlines`
call starts decoding with `E` instead of the default — observably, the
result is identical for every value of the default encoding — and when the
lines decode validly under `E` the oracle is never consulted again (the
ghost oracle-call log of the call is empty) and the learned encoding is
retained unchanged. -/
theorem claim_C6 (ctx : DecodeCtx) (st : TextFileParser) (lineNum maxLen : Int)
    (strict : Bool) (E : String) (hE : st.fixedEncoding = E) (hne : E ≠ "")
    (hdec : ∀ l ∈ splitLines (st.content.drop st.pos), pySlice l maxLen ≠ [] →
      (ctx.decode E (pySlice l maxLen)).isSome) :
    ∃ lines size st1,
      TextFileParser.readlines ctx st lineNum maxLen strict
        = .ok (lines, size, st1, [])
      ∧ st1.fixedEncoding = E
      ∧ ∀ D, TextFileParser.readlines ctx { st with defaultEncoding := D }
            lineNum maxLen strict
          = .ok (lines, size, { st1 with defaultEncoding := D }, []) := by
  obtain ⟨lines1, size1, hgo⟩ :=
    readlinesGo_no_detect ctx strict lineNum maxLen E E
      ((st.content.drop st.pos).length + 1) (st.content.drop st.pos)
      (by omega) [] 0 [] hdec
  have henc : (if st.fixedEncoding = "" then st.defaultEncoding else st.fixedEncoding) = E := by
    rw [hE, if_neg hne]
  refine ⟨lines1, size1, { st with pos := st.pos + size1, fixedEncoding := E }, ?_, rfl, ?_⟩
  · rw [TextFileParser.readlines]
    rw [henc, hE, hgo]
  · intro D
    rw [TextFileParser.readlines]
    simp only
    rw [hE, if_neg hne, hgo]

theorem claim_C2_witness :
    pySlice (takeLine [97, 98, 10]) (-1) = (takeLine [97, 98, 10]).dropLast
    ∧ readlinesGo asciiCtx false (-1) 0 1 [97, 98, 10] ⟨"utf-8", "", false⟩ [] 0 []
        = .ok ⟨[], 3, "", []⟩ := by
  have h := claim_C2_amended asciiCtx false (-1) 0 0 [97, 98, 10]
    ⟨"utf-8", "", false⟩ [] 0 [] (Or.inl rfl)
  exact ⟨h.2.1, (h.2.2.1 (by decide)).trans rfl⟩

theorem claim_C6_witness :
    ∃ lines size st1,
      TextFileParser.readlines latinCtx ⟨[97, 10], 0, "utf-8", "latin-1"⟩ (-1) (-1) false
        = .ok (lines, size, st1, [])
      ∧ st1.fixedEncoding = "latin-1"
      ∧ ∀ D, TextFileParser.readlines latinCtx ⟨[97, 10], 0, D, "latin-1"⟩ (-1) (-1) false
          = .ok (lines, size, { st1 with defaultEncoding := D }, []) :=
  claim_C6 latinCtx ⟨[97, 10], 0, "utf-8", "latin-1"⟩ (-1) (-1) false "latin-1"
    rfl (by decide) (by decide)

theorem claim_C7_witness :
    readlinesGo noneCtx true (-1) (-1) 4 [65, 66, 10] ⟨"utf-8", "", false⟩ [] 0 []
      = .error (pySlice (takeLine [65, 66, 10]) (-1))
    ∧ readlinesGo noneCtx false (-1) (-1) 4 [65, 66, 10] ⟨"utf-8", "", false⟩ [] 0 []
      = readlinesGo noneCtx false (-1) (-1) 3
          ([65, 66, 10].drop (takeLine [65, 66, 10]).length) ⟨"utf-8", "", true⟩
          ([] ++ [noneCtx.decodeReplace "utf-8" (pySlice (takeLine [65, 66, 10]) (-1))])
          (0 + (takeLine [65, 66, 10]).length)
          ([] ++ [pySlice (takeLine [65, 66, 10]) (-1)]) :=
  claim_C7 noneCtx (-1) (-1) 3 [65, 66, 10] "utf-8" "" [] 0 [] (Or.inl rfl)
    (by decide) (by decide) (by decide)

theorem claim_C10_witness :
    readlinesGo stubbornCtx false (-1) (-1) 2 [65, 10] ⟨"utf-8", "", false⟩ [] 0 []
      = readlinesGo stubbornCtx false (-1) (-1) 1
          ([65, 10].drop (takeLine [65, 10]).length) ⟨"mac-roman", "mac-roman", false⟩ []
          (0 + (takeLine [65, 10]).length)
          ([] ++ [pySlice (takeLine [65, 10]) (-1), pySlice (takeLine [65, 10]) (-1),
            pySlice (takeLine [65, 10]) (-1)]) :=
  claim_C10 stubbornCtx (-1) (-1) 1 [65, 10] "utf-8" "" "mac-roman" [] 0 []
    (Or.inl rfl) (by decide) (fun e => rfl) (by decide)

/-- Claim C3: on every check of the size monitor, a reset is performed if
and only if the file's current size exceeds 1.5 times the ceiling
(`size - ceiling > ceiling × 0.5`, i.e. `2·size > 3·ceiling`); the reset
empties the file and repositions both the write handle and the read cursor
to offset 0 — so the unread bytes `content.drop pos` disappear from the
stream — and otherwise the state is untouched. -/
theorem claim_C3 (m : StdStreamManager) :
    ((m.file_size_monitor_check).1 = true
        ↔ 2 * (m.parser.content.length : ℤ) > 3 * m.maxSize)
    ∧ ((m.file_size_monitor_check).1 = true →
        (m.file_size_monitor_check).2
          = { m with parser := { m.parser with content := [], pos := 0 }, writePos := 0 })
    ∧ ((m.file_size_monitor_check).1 = false → (m.file_size_monitor_check).2 = m) := by
  rw [StdStreamManager.file_size_monitor_check]
  split_ifs with h
  · refine ⟨⟨fun _ => ?_, fun _ => rfl⟩, fun _ => rfl, fun hf => absurd hf (by simp)⟩
    have h3 : ((2 * m.parser.content.length : ℤ) : ℚ) > ((3 * m.maxSize : ℤ) : ℚ) := by
      push_cast at h ⊢
      linarith
    exact_mod_cast h3
  · refine ⟨⟨fun ht => absurd ht (by simp), fun hgt => absurd ?_ h⟩,
      fun ht => absurd ht (by simp), fun _ => rfl⟩
    have h3 : ((2 * m.parser.content.length : ℤ) : ℚ) > ((3 * m.maxSize : ℤ) : ℚ) := by
      exact_mod_cast hgt
    push_cast at h3 ⊢
    linarith

theorem claim_C3_witness :
    (StdStreamManager.file_size_monitor_check ⟨⟨[0, 1, 2, 3], 1, "utf-8", ""⟩, 2, 4⟩).1 = true
    ∧ (StdStreamManager.file_size_monitor_check ⟨⟨[0, 1, 2, 3], 1, "utf-8", ""⟩, 2, 4⟩).2
        = ⟨⟨[], 0, "utf-8", ""⟩, 2, 0⟩ := by
  have h := claim_C3 ⟨⟨[0, 1, 2, 3], 1, "utf-8", ""⟩, 2, 4⟩
  have ht := h.1.mpr (by decide)
  exact ⟨ht, (h.2.1 ht).trans rfl⟩

/-- Claim C8: for every controller state, `pick_stdout` returns `([], 0)`
when stdout was never collected, and `pick_stderr` returns `([], 0)` when
the merge option is active (regardless of what was written) or when stderr
was never collected. -/
theorem claim_C8 (p : PopenProcMgr) (ctx : DecodeCtx) (lineNum maxLen : Int)
    (strict : Bool) :
    (p.stdoutMgr = none → p.pick_stdout ctx lineNum maxLen strict = .ok ([], 0, p))
    ∧ (p.mergeOption = true → p.pick_stderr ctx lineNum maxLen strict = .ok ([], 0, p))
    ∧ (p.stderrMgr = none → p.pick_stderr ctx lineNum maxLen strict = .ok ([], 0, p)) := by
  refine ⟨fun h => ?_, fun h => ?_, fun h => ?_⟩
  · rw [PopenProcMgr.pick_stdout, h]
  · rw [PopenProcMgr.pick_stderr, if_pos h]
  · rw [PopenProcMgr.pick_stderr]
    by_cases hm : p.mergeOption
    · rw [if_pos hm]
    · rw [if_neg hm, h]

theorem claim_C8_witness :
    PopenProcMgr.pick_stdout
        ⟨"c", "tmp", true, none, none, true, false, false, 0⟩ asciiCtx (-1) (-1) false
      = .ok ([], 0, ⟨"c", "tmp", true, none, none, true, false, false, 0⟩)
    ∧ PopenProcMgr.pick_stderr
        ⟨"c", "tmp", true, none, none, true, false, false, 0⟩ asciiCtx (-1) (-1) false
      = .ok ([], 0, ⟨"c", "tmp", true, none, none, true, false, false, 0⟩) :=
  ⟨(claim_C8 ⟨"c", "tmp", true, none, none, true, false, false, 0⟩
      asciiCtx (-1) (-1) false).1 rfl,
   (claim_C8 ⟨"c", "tmp", true, none, none, true, false, false, 0⟩
      asciiCtx (-1) (-1) false).2.1 rfl⟩

theorem waitStep_timeout_le (ctx : DecodeCtx) (timeout : Option ℚ) (endTime : ℚ)
    (delTmp : Bool) (ev : IterEvent) (p : PopenProcMgr)
    (outAcc errAcc : List String) (log : List (Nat × String))
    (h : timeoutTruthy timeout = false) :
    ∀ sig p9 log9,
      waitStep ctx timeout endTime delTmp ev p outAcc errAcc log
        ≠ .halt (.timeout sig) p9 log9 := by
  intro sig p9 log9
  rw [waitStep]
  split
  · cases herr : (applyEvent ev p).pick_stderr ctx (-1) (-1) false with
    | error r => simp
    | ok v =>
      obtain ⟨errLines, sz1, p1⟩ := v
      dsimp only
      cases hout : p1.pick_stdout ctx (-1) (-1) false with
      | error r => simp
      | ok w =>
        obtain ⟨outLines, sz2, p2⟩ := w
        dsimp only
        rw [h]
        simp
  · simp

/-- Claim C9: with `timeout = 0` the deadline machinery is disabled by
Python truthiness — `_wait` never raises a `TimeoutError`, no matter how
long the process runs (any fuel, any schedule of events). -/
theorem claim_C9 (ctx : DecodeCtx) (endTime : ℚ) (delTmp : Bool) :
    ∀ (fuel : Nat) (p : PopenProcMgr) (env : List IterEvent)
      (outAcc errAcc : List String) (log : List (Nat × String)),
      (PopenProcMgr.waitLoop ctx (some 0) endTime delTmp fuel p env outAcc errAcc log).1.isTimeout
        = false := by
  have htt : timeoutTruthy (some 0) = false := by
    rw [timeoutTruthy, if_pos rfl]
  intro fuel
  induction fuel with
  | zero =>
    intro p env outAcc errAcc log
    rfl
  | succ f ih =>
    intro p env outAcc errAcc log
    rw [PopenProcMgr.waitLoop]
    cases hstep : waitStep ctx (some 0) endTime delTmp (env.headD ⟨[], [], false, 0⟩)
        p outAcc errAcc log with
    | halt out p9 log9 =>
      cases out with
      | timeout sig => exact absurd hstep (waitStep_timeout_le _ _ _ _ _ _ _ _ _ htt _ _ _)
      | ok res => rfl
      | decodeErr r => rfl
      | fuelOut => rfl
    | next p2 outAcc1 errAcc1 log1 => exact ih _ _ _ _ _

theorem linesOfTag_append (t : Nat) (a b : List (Nat × String)) :
    linesOfTag t (a ++ b) = linesOfTag t a ++ linesOfTag t b := by
  simp [linesOfTag]

theorem linesOfTag_tag_self (t : Nat) (ls : List String) :
    linesOfTag t (ls.map fun s => (t, s)) = ls := by
  induction ls with
  | nil => rfl
  | cons s rest ih =>
    simp only [List.map_cons, linesOfTag, List.filter_cons]
    simp only [linesOfTag] at ih
    simp [ih]

theorem linesOfTag_tag_ne {u t : Nat} (h : u ≠ t) (ls : List String) :
    linesOfTag t (ls.map fun s => (u, s)) = [] := by
  induction ls with
  | nil => rfl
  | cons s rest ih =>
    simp only [List.map_cons, linesOfTag, List.filter_cons]
    simp only [linesOfTag] at ih
    simp [ih, h]

theorem pick_stdout_ok_fields {ctx : DecodeCtx} {p : PopenProcMgr} {a b : Int}
    {c : Bool} {ls : List String} {n : Nat} {p9 : PopenProcMgr}
    (h : p.pick_stdout ctx a b c = .ok (ls, n, p9)) :
    p9.cmd = p.cmd ∧ p9.cleaned = p.cleaned ∧ p9.alive = p.alive
    ∧ p9.mergeOption = p.mergeOption ∧ p9.killed = p.killed
    ∧ p9.exitCode = p.exitCode
    ∧ p9.stdoutMgr.isSome = p.stdoutMgr.isSome ∧ p9.stderrMgr = p.stderrMgr := by
  rw [PopenProcMgr.pick_stdout] at h
  cases hso : p.stdoutMgr with
  | none =>
    rw [hso] at h
    simp only [Except.ok.injEq, Prod.mk.injEq] at h
    rw [← h.2.2]
    simp [hso]
  | some m =>
    rw [hso] at h
    dsimp only at h
    cases hpl : m.pick_lines ctx a b c with
    | error r => rw [hpl] at h; simp at h
    | ok v =>
      obtain ⟨lines, size, m1⟩ := v
      rw [hpl] at h
      simp only [Except.ok.injEq, Prod.mk.injEq] at h
      rw [← h.2.2]
      simp [hso]

theorem pick_stderr_ok_fields {ctx : DecodeCtx} {p : PopenProcMgr} {a b : Int}
    {c : Bool} {ls : List String} {n : Nat} {p9 : PopenProcMgr}
    (h : p.pick_stderr ctx a b c = .ok (ls, n, p9)) :
    p9.cmd = p.cmd ∧ p9.cleaned = p.cleaned ∧ p9.alive = p.alive
    ∧ p9.mergeOption = p.mergeOption ∧ p9.killed = p.killed
    ∧ p9.exitCode = p.exitCode
    ∧ p9.stdoutMgr = p.stdoutMgr ∧ p9.stderrMgr.isSome = p.stderrMgr.isSome := by
  rw [PopenProcMgr.pick_stderr] at h
  by_cases hm : p.mergeOption
  · rw [if_pos hm] at h
    simp only [Except.ok.injEq, Prod.mk.injEq] at h
    rw [← h.2.2]
    simp
  · rw [if_neg hm] at h
    cases hse : p.stderrMgr with
    | none =>
      rw [hse] at h
      simp only [Except.ok.injEq, Prod.mk.injEq] at h
      rw [← h.2.2]
      simp [hse]
    | some m =>
      rw [hse] at h
      dsimp only at h
      cases hpl : m.pick_lines ctx a b c with
      | error r => rw [hpl] at h; simp at h
      | ok v =>
        obtain ⟨lines, size, m1⟩ := v
        rw [hpl] at h
        simp only [Except.ok.injEq, Prod.mk.injEq] at h
        rw [← h.2.2]
        simp [hse]

theorem applyEvent_fields (ev : IterEvent) (p : PopenProcMgr) :
    (applyEvent ev p).cmd = p.cmd ∧ (applyEvent ev p).cleaned = p.cleaned
    ∧ (applyEvent ev p).mergeOption = p.mergeOption
    ∧ (applyEvent ev p).killed = p.killed
    ∧ (applyEvent ev p).exitCode = p.exitCode
    ∧ (applyEvent ev p).stdoutMgr.isSome = p.stdoutMgr.isSome
    ∧ (applyEvent ev p).stderrMgr.isSome = p.stderrMgr.isSome := by
  rw [applyEvent]
  cases hso : p.stdoutMgr <;> cases hse : p.stderrMgr <;> cases hm : p.mergeOption <;>
    simp [hso, hse, hm]

theorem kill_fields (p : PopenProcMgr) :
    (p.kill).cmd = p.cmd ∧ (p.kill).cleaned = p.cleaned
    ∧ (p.kill).alive = false
    ∧ (p.kill).stdoutMgr = p.stdoutMgr ∧ (p.kill).stderrMgr = p.stderrMgr := by
  rw [PopenProcMgr.kill]
  by_cases h : p.alive
  · rw [if_pos h]
    exact ⟨rfl, rfl, rfl, rfl, rfl⟩
  · rw [if_neg h]
    exact ⟨rfl, rfl, by simp at h; exact h, rfl, rfl⟩

theorem waitStep_next_spec {ctx : DecodeCtx} {timeout : Option ℚ} {endTime : ℚ}
    {delTmp : Bool} {ev : IterEvent} {p p2 : PopenProcMgr}
    {outAcc errAcc o e : List String} {log l : List (Nat × String)}
    (h : waitStep ctx timeout endTime delTmp ev p outAcc errAcc log
      = .next p2 o e l) :
    ∃ errLines sz1 p1 outLines sz2,
      ((applyEvent ev p).still_remain_output_to_read || (applyEvent ev p).alive) = true
      ∧ (applyEvent ev p).pick_stderr ctx (-1) (-1) false = .ok (errLines, sz1, p1)
      ∧ p1.pick_stdout ctx (-1) (-1) false = .ok (outLines, sz2, p2)
      ∧ o = outAcc ++ outLines ∧ e = errAcc ++ errLines
      ∧ l = log ++ errLines.map (fun s => (STDERR, s))
          ++ outLines.map (fun s => (STDOUT, s)) := by
  rw [waitStep] at h
  by_cases hg : ((applyEvent ev p).still_remain_output_to_read || (applyEvent ev p).alive) = true
  · rw [if_pos hg] at h
    cases herr : (applyEvent ev p).pick_stderr ctx (-1) (-1) false with
    | error r => rw [herr] at h; simp at h
    | ok v =>
      obtain ⟨errLines, sz1, p1⟩ := v
      rw [herr] at h
      dsimp only at h
      cases hout : p1.pick_stdout ctx (-1) (-1) false with
      | error r => rw [hout] at h; simp at h
      | ok w =>
        obtain ⟨outLines, sz2, p2x⟩ := w
        rw [hout] at h
        dsimp only at h
        by_cases htt : timeoutTruthy timeout = true
        · rw [htt] at h
          simp only [if_true] at h
          by_cases hdl : endTime - ev.now ≤ 0
          · rw [if_pos hdl] at h; simp at h
          · rw [if_neg hdl] at h
            simp only [StepRes.next.injEq] at h
            exact ⟨errLines, sz1, p1, outLines, sz2, hg, rfl,
              h.1 ▸ hout, h.2.1.symm, h.2.2.1.symm, h.2.2.2.symm⟩
        · rw [Bool.not_eq_true] at htt
          rw [htt] at h
          simp only [Bool.false_eq_true, if_false] at h
          simp only [StepRes.next.injEq] at h
          exact ⟨errLines, sz1, p1, outLines, sz2, hg, rfl,
            h.1 ▸ hout, h.2.1.symm, h.2.2.1.symm, h.2.2.2.symm⟩
  · rw [Bool.not_eq_true] at hg
    rw [hg] at h
    simp at h

theorem waitStep_halt_ok_spec {ctx : DecodeCtx} {timeout : Option ℚ} {endTime : ℚ}
    {delTmp : Bool} {ev : IterEvent} {p p9 : PopenProcMgr} {res : ProcResult}
    {outAcc errAcc : List String} {log log9 : List (Nat × String)}
    (h : waitStep ctx timeout endTime delTmp ev p outAcc errAcc log
      = .halt (.ok res) p9 log9) :
    ((applyEvent ev p).still_remain_output_to_read || (applyEvent ev p).alive) = false
    ∧ res = ⟨(applyEvent ev p).exitCode, outAcc, errAcc⟩
    ∧ p9 = (applyEvent ev p).clean delTmp ∧ log9 = log := by
  rw [waitStep] at h
  by_cases hg : ((applyEvent ev p).still_remain_output_to_read || (applyEvent ev p).alive) = true
  · rw [if_pos hg] at h
    cases herr : (applyEvent ev p).pick_stderr ctx (-1) (-1) false with
    | error r => rw [herr] at h; simp at h
    | ok v =>
      obtain ⟨errLines, sz1, p1⟩ := v
      rw [herr] at h
      dsimp only at h
      cases hout : p1.pick_stdout ctx (-1) (-1) false with
      | error r => rw [hout] at h; simp at h
      | ok w =>
        obtain ⟨outLines, sz2, p2x⟩ := w
        rw [hout] at h
        dsimp only at h
        by_cases htt : timeoutTruthy timeout = true
        · rw [htt] at h
          simp only [if_true] at h
          by_cases hdl : endTime - ev.now ≤ 0
          · rw [if_pos hdl] at h; simp at h
          · rw [if_neg hdl] at h; simp at h
        · rw [Bool.not_eq_true] at htt
          rw [htt] at h
          simp at h
  · rw [Bool.not_eq_true] at hg
    rw [hg] at h
    simp only [Bool.false_eq_true, if_false, StepRes.halt.injEq, WaitOutcome.ok.injEq] at h
    exact ⟨hg, h.1.symm, h.2.1.symm, h.2.2.symm⟩

theorem waitStep_halt_timeout_spec {ctx : DecodeCtx} {timeout : Option ℚ}
    {endTime : ℚ} {delTmp : Bool} {ev : IterEvent} {p p9 : PopenProcMgr}
    {sig : TimeoutSig} {outAcc errAcc : List String} {log log9 : List (Nat × String)}
    (h : waitStep ctx timeout endTime delTmp ev p outAcc errAcc log
      = .halt (.timeout sig) p9 log9) :
    ∃ errLines sz1 p1 outLines sz2 p2,
      (applyEvent ev p).pick_stderr ctx (-1) (-1) false = .ok (errLines, sz1, p1)
      ∧ p1.pick_stdout ctx (-1) (-1) false = .ok (outLines, sz2, p2)
      ∧ sig = ⟨p2.cmd, timeout.getD 0, outAcc ++ outLines, errAcc ++ errLines⟩
      ∧ p9 = p2.kill
      ∧ log9 = log ++ errLines.map (fun s => (STDERR, s))
          ++ outLines.map (fun s => (STDOUT, s)) := by
  rw [waitStep] at h
  by_cases hg : ((applyEvent ev p).still_remain_output_to_read || (applyEvent ev p).alive) = true
  · rw [if_pos hg] at h
    cases herr : (applyEvent ev p).pick_stderr ctx (-1) (-1) false with
    | error r => rw [herr] at h; simp at h
    | ok v =>
      obtain ⟨errLines, sz1, p1⟩ := v
      rw [herr] at h
      dsimp only at h
      cases hout : p1.pick_stdout ctx (-1) (-1) false with
      | error r => rw [hout] at h; simp at h
      | ok w =>
        obtain ⟨outLines, sz2, p2x⟩ := w
        rw [hout] at h
        dsimp only at h
        by_cases htt : timeoutTruthy timeout = true
        · rw [htt] at h
          simp only [if_true] at h
          by_cases hdl : endTime - ev.now ≤ 0
          · rw [if_pos hdl] at h
            simp only [StepRes.halt.injEq, WaitOutcome.timeout.injEq] at h
            exact ⟨errLines, sz1, p1, outLines, sz2, p2x, rfl, hout,
              h.1.symm, h.2.1.symm, h.2.2.symm⟩
          · rw [if_neg hdl] at h; simp at h
        · rw [Bool.not_eq_true] at htt
          rw [htt] at h
          simp at h
  · rw [Bool.not_eq_true] at hg
    rw [hg] at h
    simp at h

theorem linesOfTag_log1_stdout (log : List (Nat × String))
    (errLines outLines : List String) :
    linesOfTag STDOUT (log ++ errLines.map (fun s => (STDERR, s))
        ++ outLines.map (fun s => (STDOUT, s)))
      = linesOfTag STDOUT log ++ outLines := by
  rw [linesOfTag_append, linesOfTag_append, linesOfTag_tag_ne (by decide),
    linesOfTag_tag_self, List.append_nil]

theorem linesOfTag_log1_stderr (log : List (Nat × String))
    (errLines outLines : List String) :
    linesOfTag STDERR (log ++ errLines.map (fun s => (STDERR, s))
        ++ outLines.map (fun s => (STDOUT, s)))
      = linesOfTag STDERR log ++ errLines := by
  rw [linesOfTag_append, linesOfTag_append, linesOfTag_tag_self,
    linesOfTag_tag_ne (by decide), List.append_nil]

theorem waitStep_next_fields {ctx : DecodeCtx} {timeout : Option ℚ} {endTime : ℚ}
    {delTmp : Bool} {ev : IterEvent} {p p2 : PopenProcMgr}
    {outAcc errAcc o e : List String} {log l : List (Nat × String)}
    (h : waitStep ctx timeout endTime delTmp ev p outAcc errAcc log
      = .next p2 o e l) :
    p2.cmd = p.cmd ∧ p2.cleaned = p.cleaned
    ∧ p2.stdoutMgr.isSome = p.stdoutMgr.isSome
    ∧ p2.stderrMgr.isSome = p.stderrMgr.isSome := by
  obtain ⟨errLines, sz1, p1, outLines, sz2, hg, herr, hout, _, _, _⟩ :=
    waitStep_next_spec h
  have hA := applyEvent_fields ev p
  have h1 := pick_stderr_ok_fields herr
  have h2 := pick_stdout_ok_fields hout
  refine ⟨?_, ?_, ?_, ?_⟩
  · rw [h2.1, h1.1, hA.1]
  · rw [h2.2.1, h1.2.1, hA.2.1]
  · rw [h2.2.2.2.2.2.2.1, h1.2.2.2.2.2.2.1, hA.2.2.2.2.2.1]
  · rw [h2.2.2.2.2.2.2.2, h1.2.2.2.2.2.2.2, hA.2.2.2.2.2.2]

/-- Claim C5: whenever a wait/run with a truthy timeout ends by raising the
timeout signal, the process was killed first (the final state is dead), and
the signal carries the command string, the configured timeout value, and
exactly the stdout and stderr lines drained so far (the stream-tagged
projections of the callback log at the moment of raising); no cleanup
happens on this path — the `cleaned` flag and the attachment of both
StreamCaptures are exactly as before the call. -/
theorem claim_C5 (ctx : DecodeCtx) (endTime : ℚ) (delTmp : Bool) (τ : ℚ) :
    ∀ (fuel : Nat) (p : PopenProcMgr) (env : List IterEvent)
      (outAcc errAcc : List String) (log log9 : List (Nat × String))
      (sig : TimeoutSig) (p9 : PopenProcMgr),
      outAcc = linesOfTag STDOUT log → errAcc = linesOfTag STDERR log →
      PopenProcMgr.waitLoop ctx (some τ) endTime delTmp fuel p env outAcc errAcc log
        = (.timeout sig, p9, log9) →
      sig.cmd = p.cmd ∧ sig.timeout = τ
      ∧ sig.stdout = linesOfTag STDOUT log9 ∧ sig.stderr = linesOfTag STDERR log9
      ∧ p9.alive = false ∧ (∃ pk : PopenProcMgr, p9 = pk.kill) ∧ p9.cleaned = p.cleaned
      ∧ p9.stdoutMgr.isSome = p.stdoutMgr.isSome
      ∧ p9.stderrMgr.isSome = p.stderrMgr.isSome := by
  intro fuel
  induction fuel with
  | zero =>
    intro p env outAcc errAcc log log9 sig p9 hout herr hrun
    rw [PopenProcMgr.waitLoop] at hrun
    simp only [Prod.mk.injEq] at hrun
    exact absurd hrun.1 (by simp)
  | succ f ih =>
    intro p env outAcc errAcc log log9 sig p9 hinvO hinvE hrun
    rw [PopenProcMgr.waitLoop] at hrun
    cases hstep : waitStep ctx (some τ) endTime delTmp (env.headD ⟨[], [], false, 0⟩)
        p outAcc errAcc log with
    | halt out p9x log9x =>
      rw [hstep] at hrun
      simp only [Prod.mk.injEq] at hrun
      obtain ⟨h1, h2, h3⟩ := hrun
      subst h2
      subst h3
      cases out with
      | ok res => simp at h1
      | decodeErr r => simp at h1
      | fuelOut => simp at h1
      | timeout sig0 =>
        simp only [WaitOutcome.timeout.injEq] at h1
        subst h1
        obtain ⟨errLines, sz1, p1, outLines, sz2, p2, herr, hout, hsig, hp9, hlog9⟩ :=
          waitStep_halt_timeout_spec hstep
        have hA := applyEvent_fields (env.headD ⟨[], [], false, 0⟩) p
        have hf1 := pick_stderr_ok_fields herr
        have hf2 := pick_stdout_ok_fields hout
        have hk := kill_fields p2
        subst hsig
        subst hp9
        subst hlog9
        refine ⟨?_, rfl, ?_, ?_, hk.2.2.1, ?_, ?_, ?_, ?_⟩
        · show p2.cmd = p.cmd
          rw [hf2.1, hf1.1, hA.1]
        · show outAcc ++ outLines = _
          rw [linesOfTag_log1_stdout, ← hinvO]
        · show errAcc ++ errLines = _
          rw [linesOfTag_log1_stderr, ← hinvE]
        · exact ⟨p2, rfl⟩
        · rw [hk.2.1, hf2.2.1, hf1.2.1, hA.2.1]
        · rw [hk.2.2.2.1, hf2.2.2.2.2.2.2.1, hf1.2.2.2.2.2.2.1, hA.2.2.2.2.2.1]
        · rw [hk.2.2.2.2, hf2.2.2.2.2.2.2.2, hf1.2.2.2.2.2.2.2, hA.2.2.2.2.2.2]
    | next p2 o e l =>
      rw [hstep] at hrun
      obtain ⟨errLines, sz1, p1, outLines, sz2, hg, herr, hout, ho, he, hl⟩ :=
        waitStep_next_spec hstep
      have hfields := waitStep_next_fields hstep
      have hO1 : o = linesOfTag STDOUT l := by
        rw [ho, hl, linesOfTag_log1_stdout, ← hinvO]
      have hE1 : e = linesOfTag STDERR l := by
        rw [he, hl, linesOfTag_log1_stderr, ← hinvE]
      obtain ⟨c1, c2, c3, c4, c5, c6, c7, c8, c9⟩ :=
        ih p2 env.tail o e l log9 sig p9 hO1 hE1 hrun
      exact ⟨c1.trans hfields.1, c2, c3, c4, c5, c6, c7.trans hfields.2.1,
        c8.trans hfields.2.2.1, c9.trans hfields.2.2.2⟩

/-- Claim C4, amended.  Exit condition (as claimed): a normally completed
wait never exits while either stream still has unread data or the process
is still running — the returned state is `clean` applied to an exit state
on which the guard `still_remain_output_to_read() or is_living()` is false,
and the result's return code is that state's exit code.  Ordering
(corrected): within every iteration the stderr lines drained by this
iteration — which stop at the first empty(-after-truncation) line, not
necessarily all currently-available lines — are emitted before any stdout
lines of the same iteration: the callback log decomposes into
per-iteration stderr-before-stdout blocks. -/
theorem claim_C4_amended (ctx : DecodeCtx) (timeout : Option ℚ) (endTime : ℚ)
    (delTmp : Bool) :
    ∀ (fuel : Nat) (p : PopenProcMgr) (env : List IterEvent)
      (outAcc errAcc : List String) (log log9 : List (Nat × String))
      (res : ProcResult) (p9 : PopenProcMgr),
      PopenProcMgr.waitLoop ctx timeout endTime delTmp fuel p env outAcc errAcc log
        = (.ok res, p9, log9) →
      (∃ pexit : PopenProcMgr,
        (pexit.still_remain_output_to_read || pexit.alive) = false
        ∧ res.returncode = pexit.exitCode ∧ p9 = pexit.clean delTmp)
      ∧ ∃ blocks, log9 = log ++ logBlocks blocks := by
  intro fuel
  induction fuel with
  | zero =>
    intro p env outAcc errAcc log log9 res p9 hrun
    rw [PopenProcMgr.waitLoop] at hrun
    simp only [Prod.mk.injEq] at hrun
    exact absurd hrun.1 (by simp)
  | succ f ih =>
    intro p env outAcc errAcc log log9 res p9 hrun
    rw [PopenProcMgr.waitLoop] at hrun
    cases hstep : waitStep ctx timeout endTime delTmp (env.headD ⟨[], [], false, 0⟩)
        p outAcc errAcc log with
    | halt out p9x log9x =>
      rw [hstep] at hrun
      simp only [Prod.mk.injEq] at hrun
      obtain ⟨h1, h2, h3⟩ := hrun
      subst h2
      subst h3
      cases out with
      | timeout sig => simp at h1
      | decodeErr r => simp at h1
      | fuelOut => simp at h1
      | ok res0 =>
        simp only [WaitOutcome.ok.injEq] at h1
        subst h1
        obtain ⟨hg, hres, hp9, hlog9⟩ := waitStep_halt_ok_spec hstep
        subst hlog9
        refine ⟨⟨applyEvent (env.headD ⟨[], [], false, 0⟩) p, ?_, ?_, hp9⟩, [], by simp [logBlocks]⟩
        · rw [Bool.eq_false_iff]
          intro hcon
          rw [hcon] at hg
          simp at hg
        · rw [hres]
    | next p2 o e l =>
      rw [hstep] at hrun
      obtain ⟨errLines, sz1, p1, outLines, sz2, hg, herr, hout, ho, he, hl⟩ :=
        waitStep_next_spec hstep
      obtain ⟨hexit, blocks, hb⟩ := ih p2 env.tail o e l log9 res p9 hrun
      refine ⟨hexit, (errLines, outLines) :: blocks, ?_⟩
      rw [hb, hl, logBlocks]
      simp [List.append_assoc]

/-- Claim C4, counterexample to the claim as stated.  With stderr backlog
"x\n\ny\n" and stdout backlog "z\n" all currently available, one iteration
of the wait loop drains only `["x"]` from stderr (its drain stops at the
bare newline, because `raw_line[:-1]` empties it) and then drains `["z"]`
from stdout, while the stderr stream still holds the available unread line
"y\n" — so not all currently-available stderr lines are drained before the
stdout lines. -/
theorem claim_C4_counterexample :
    ∃ p2 : PopenProcMgr,
      waitStep asciiCtx none 0 true ⟨[], [], false, 0⟩
          ⟨"c", "tmp", false, some ⟨⟨[122, 10], 0, "utf-8", ""⟩, 104857600, 2⟩,
            some ⟨⟨[120, 10, 10, 121, 10], 0, "utf-8", ""⟩, 104857600, 5⟩,
            true, false, false, 0⟩ [] [] []
        = .next p2 ["z"] ["x"] [(STDERR, "x"), (STDOUT, "z")]
      ∧ ∃ m : StdStreamManager, p2.stderrMgr = some m
          ∧ m.is_stream_end = false
          ∧ m.parser.content.drop m.parser.pos = [121, 10] := by
  refine ⟨⟨"c", "tmp", false, some ⟨⟨[122, 10], 2, "utf-8", ""⟩, 104857600, 2⟩,
      some ⟨⟨[120, 10, 10, 121, 10], 3, "utf-8", ""⟩, 104857600, 5⟩,
      true, false, false, 0⟩, by decide, ⟨⟨[120, 10, 10, 121, 10], 3, "utf-8", ""⟩, 104857600, 5⟩,
      by decide, by decide, by decide⟩

theorem claim_C4_witness :
    (∃ pexit : PopenProcMgr,
      (pexit.still_remain_output_to_read || pexit.alive) = false
      ∧ ProcResult.returncode ⟨7, [], []⟩ = pexit.exitCode
      ∧ PopenProcMgr.clean
          ⟨"c", "tmp", false, none, none, false, false, false, 7⟩ true
        = pexit.clean true)
    ∧ ∃ blocks, ([] : List (Nat × String)) = [] ++ logBlocks blocks := by
  have h := claim_C4_amended asciiCtx none 0 true 1
    ⟨"c", "tmp", false, none, none, true, false, false, 7⟩
    [⟨[], [], true, 0⟩] [] [] [] [] ⟨7, [], []⟩
    (PopenProcMgr.clean ⟨"c", "tmp", false, none, none, false, false, false, 7⟩ true)
    (by decide)
  exact h

theorem pySlice_strip_newline (l : List Byte) : pySlice (l ++ [10]) (-1) = l := by
  rw [pySlice, if_neg (by omega)]
  have h1 : (l ++ [10]).length - (Int.toNat (-(-1 : Int))) = l.length := by
    simp
  rw [h1]
  exact List.take_left l [10]

theorem encodeLinesNL_ne_nil (l : List Byte) (ls : List (List Byte)) :
    encodeLinesNL (l :: ls) ≠ [] := by
  rw [encodeLinesNL]
  cases l <;> simp

theorem encodeLinesNL_cons_length (l : List Byte) (ls : List (List Byte)) :
    (encodeLinesNL (l :: ls)).length = l.length + 1 + (encodeLinesNL ls).length := by
  rw [encodeLinesNL]
  simp [List.length_append]
  omega

/-- On a stream of nonempty newline-terminated lines whose bytes are ASCII
and newline-free, the read loop with default parameters returns exactly the
decoded lines in order and consumes every byte. -/
theorem readlinesGo_roundtrip (ctx : DecodeCtx) (fx : String)
    (hdec : ∀ bs : List Byte, (∀ b ∈ bs, b < 128) →
      ctx.decode "utf-8" bs = some (asciiStr bs)) :
    ∀ (ls : List (List Byte)),
      (∀ l ∈ ls, l ≠ [] ∧ ∀ b ∈ l, b < 128 ∧ b ≠ 10) →
      ∀ (f : Nat) (acc : List String) (size : Nat) (calls : List (List Byte)),
      (encodeLinesNL ls).length < f →
      readlinesGo ctx false (-1) (-1) f (encodeLinesNL ls) ⟨"utf-8", fx, false⟩
          acc size calls
        = .ok ⟨acc ++ ls.map asciiStr, size + (encodeLinesNL ls).length, fx, calls⟩ := by
  intro ls
  induction ls with
  | nil =>
    intro hls f acc size calls hf
    match f, hf with
    | f + 1, _ =>
      simp [readlinesGo, encodeLinesNL, takeLine, pySlice]
  | cons l ls ih =>
    intro hls f acc size calls hf
    have hl := hls l (by simp)
    have hlne : l ≠ [] := hl.1
    have hl10 : ∀ b ∈ l, b ≠ 10 := fun b hb => (hl.2 b hb).2
    have hraw : takeLine (encodeLinesNL (l :: ls)) = l ++ [10] := by
      rw [show encodeLinesNL (l :: ls) = l ++ 10 :: encodeLinesNL ls from rfl]
      exact takeLine_append_newline _ hl10
    have htr : pySlice (takeLine (encodeLinesNL (l :: ls))) (-1) = l := by
      rw [hraw]
      exact pySlice_strip_newline l
    have htrne : pySlice (takeLine (encodeLinesNL (l :: ls))) (-1) ≠ [] := by
      rw [htr]
      exact hlne
    have htd : tryDecode ctx false 3 (pySlice (takeLine (encodeLinesNL (l :: ls))) (-1))
        ⟨"utf-8", fx, false⟩ = (.ok (asciiStr l), ⟨"utf-8", fx, false⟩, []) := by
      rw [htr]
      simp [tryDecode, attemptDecode, hdec l (fun b hb => (hl.2 b hb).1)]
    have h3 : encodeLinesNL (l :: ls) = (l ++ [10]) ++ encodeLinesNL ls := by
      rw [show encodeLinesNL (l :: ls) = l ++ 10 :: encodeLinesNL ls from rfl,
        List.append_cons]
    have hdrop : (encodeLinesNL (l :: ls)).drop (takeLine (encodeLinesNL (l :: ls))).length
        = encodeLinesNL ls := by
      rw [hraw]
      conv_lhs => rw [h3]
      exact List.drop_left (l ++ [10]) (encodeLinesNL ls)
    match f, hf with
    | f + 1, hf =>
      rw [readlinesGo, if_pos (Or.inl rfl), if_neg htrne, htd]
      dsimp only
      rw [hdrop, List.append_nil]
      rw [ih (fun x hx => hls x (by simp [hx])) f (acc ++ [asciiStr l]) _ calls
        (by rw [encodeLinesNL_cons_length] at hf; omega)]
      rw [hraw]
      simp [encodeLinesNL_cons_length, List.append_assoc, List.length_append]
      omega

/-- `readlines` with default parameters on a fresh parser over a stream of
nonempty ASCII newline-terminated lines: all lines come back decoded, all
bytes are consumed, no encoding is learned and the oracle is never
consulted. -/
theorem readlines_roundtrip (ctx : DecodeCtx)
    (hdec : ∀ bs : List Byte, (∀ b ∈ bs, b < 128) →
      ctx.decode "utf-8" bs = some (asciiStr bs))
    (ls : List (List Byte))
    (hls : ∀ l ∈ ls, l ≠ [] ∧ ∀ b ∈ l, b < 128 ∧ b ≠ 10) :
    TextFileParser.readlines ctx ⟨encodeLinesNL ls, 0, "utf-8", ""⟩ (-1) (-1) false
      = .ok (ls.map asciiStr, (encodeLinesNL ls).length,
          ⟨encodeLinesNL ls, (encodeLinesNL ls).length, "utf-8", ""⟩, []) := by
  have hgo := readlinesGo_roundtrip ctx "" hdec ls hls
    ((encodeLinesNL ls).length + 1) [] 0 [] (by omega)
  rw [TextFileParser.readlines]
  simp only [List.drop_zero, if_true]
  rw [hgo]
  simp

/-- Claim C1, amended: for every child that writes N *nonempty* ASCII lines
(no interior newlines, each terminated by a newline) to its stdout, with
total output under the size ceiling, running and waiting via the controller
returns exactly N decoded stdout lines, in order, each the decoding of
precisely the bytes of the corresponding line minus its terminator. -/
theorem claim_C1_amended (ctx : DecodeCtx) (rawLines : List (List Byte))
    (hl : ∀ l ∈ rawLines, l ≠ [] ∧ ∀ b ∈ l, b < 128 ∧ b ≠ 10)
    (hdec : ∀ bs : List Byte, (∀ b ∈ bs, b < 128) →
      ctx.decode "utf-8" bs = some (asciiStr bs)) :
    (runChildScenario ctx rawLines).1 = .ok ⟨0, rawLines.map asciiStr, []⟩ := by
  cases rawLines with
  | nil => rfl
  | cons l0 ls0 =>
    have hbne : encodeLinesNL (l0 :: ls0) ≠ [] := encodeLinesNL_ne_nil l0 ls0
    have hA : applyEvent ⟨encodeLinesNL (l0 :: ls0), [], true, 0⟩ freshCtl
        = midCtl (encodeLinesNL (l0 :: ls0)) := rfl
    have hg : ((midCtl (encodeLinesNL (l0 :: ls0))).still_remain_output_to_read
        || (midCtl (encodeLinesNL (l0 :: ls0))).alive) = true := by
      simp [midCtl, PopenProcMgr.still_remain_output_to_read,
        StdStreamManager.is_stream_end, TextFileParser.reach_end, Nat.le_zero,
        List.length_eq_zero, hbne]
    have herr : (midCtl (encodeLinesNL (l0 :: ls0))).pick_stderr ctx (-1) (-1) false
        = .ok ([], 0, midCtl (encodeLinesNL (l0 :: ls0))) := rfl
    have hout : (midCtl (encodeLinesNL (l0 :: ls0))).pick_stdout ctx (-1) (-1) false
        = .ok ((l0 :: ls0).map asciiStr, (encodeLinesNL (l0 :: ls0)).length,
            drainedCtl (encodeLinesNL (l0 :: ls0))) := by
      rw [PopenProcMgr.pick_stdout]
      dsimp only [midCtl]
      rw [StdStreamManager.pick_lines]
      rw [readlines_roundtrip ctx hdec (l0 :: ls0) hl]
      rfl
    have hstep1 : waitStep ctx none 0 true ⟨encodeLinesNL (l0 :: ls0), [], true, 0⟩
        freshCtl [] [] []
        = .next (drainedCtl (encodeLinesNL (l0 :: ls0))) ((l0 :: ls0).map asciiStr) []
            (((l0 :: ls0).map asciiStr).map (fun s => (STDOUT, s))) := by
      rw [waitStep]
      simp only [hA]
      rw [if_pos hg, herr]
      dsimp only
      rw [hout]
      rfl
    have hg2 : ((applyEvent ⟨[], [], false, 0⟩ (drainedCtl (encodeLinesNL (l0 :: ls0)))).still_remain_output_to_read
        || (applyEvent ⟨[], [], false, 0⟩ (drainedCtl (encodeLinesNL (l0 :: ls0)))).alive) = false := by
      simp [applyEvent, drainedCtl, StdStreamManager.appendBytes,
        PopenProcMgr.still_remain_output_to_read, StdStreamManager.is_stream_end,
        TextFileParser.reach_end]
    have hstep2 : waitStep ctx none 0 true ⟨[], [], false, 0⟩
        (drainedCtl (encodeLinesNL (l0 :: ls0))) ((l0 :: ls0).map asciiStr) []
        (((l0 :: ls0).map asciiStr).map (fun s => (STDOUT, s)))
        = .halt (.ok ⟨0, (l0 :: ls0).map asciiStr, []⟩)
            ((applyEvent ⟨[], [], false, 0⟩ (drainedCtl (encodeLinesNL (l0 :: ls0)))).clean true)
            (((l0 :: ls0).map asciiStr).map (fun s => (STDOUT, s))) := by
      rw [waitStep]
      rw [if_neg (by rw [hg2]; simp)]
      rfl
    rw [runChildScenario, PopenProcMgr.waitLoop]
    dsimp only [List.headD, List.tail]
    rw [hstep1]
    dsimp only
    rw [PopenProcMgr.waitLoop]
    dsimp only [List.headD, List.tail]
    rw [hstep2]

/-- Claim C1, counterexample to the claim as stated.  A child that writes
the two ASCII lines "" and "a" (bytes "\n" "a\n") round-trips to a single
line `["a"]`: the empty line is silently dropped by the read loop (its raw
line "\n" is emptied by the `[:-1]` slice, which breaks the loop), so the
controller does not return N lines for every ASCII input. -/
theorem claim_C1_counterexample :
    (runChildScenario asciiCtx [[], [97]]).1 = .ok ⟨0, ["a"], []⟩
    ∧ (["a"] : List String) ≠ [asciiStr [], asciiStr [97]] := by
  constructor
  · decide
  · decide

theorem claim_C1_witness :
    (runChildScenario asciiCtx [[104, 105], [121]]).1
      = .ok ⟨0, ([[104, 105], [121]] : List (List Byte)).map asciiStr, []⟩ :=
  claim_C1_amended asciiCtx [[104, 105], [121]] (by decide) asciiCtx_decode_ascii

theorem claim_C5_witness :
    (⟨"child", 5, [], []⟩ : TimeoutSig).cmd = freshCtl.cmd
    ∧ (⟨"child", 5, [], []⟩ : TimeoutSig).timeout = 5
    ∧ (⟨"child", "tmp", false, some ⟨freshParser, defaultBufferSize, 0⟩,
        some ⟨freshParser, defaultBufferSize, 0⟩, false, true, false, 0⟩ : PopenProcMgr).alive
        = false
    ∧ (⟨"child", "tmp", false, some ⟨freshParser, defaultBufferSize, 0⟩,
        some ⟨freshParser, defaultBufferSize, 0⟩, false, true, false, 0⟩ : PopenProcMgr).cleaned
        = freshCtl.cleaned := by
  have h := claim_C5 asciiCtx 5 true 5 1 freshCtl [⟨[], [], false, 100⟩] [] [] [] []
    ⟨"child", 5, [], []⟩
    ⟨"child", "tmp", false, some ⟨freshParser, defaultBufferSize, 0⟩,
      some ⟨freshParser, defaultBufferSize, 0⟩, false, true, false, 0⟩
    rfl rfl (by with_unfolding_all rfl)
  exact ⟨h.1, h.2.1, h.2.2.2.2.1, h.2.2.2.2.2.2.1⟩

end PopenMgr
